import Mathlib

/-!
# Cache-Mapping simulation engine: a shallow embedding

This file embeds the cache simulation engine of the Cache-Mapping repository
(`components/cache-visualizer.tsx`, duplicated verbatim for comparison mode)
into Lean and proves properties of it.

Modelling conventions:
* JavaScript numbers carrying addresses, indices, counters and timestamps are
  embedded as `Nat` (all in-range values are non-negative and far below 2^31,
  so the JS 32-bit bitwise operators `&` and `>>` agree with `Nat.land` /
  `Nat.shiftRight`); the address text box value is embedded as `Int` where the
  sign check of the submit handler matters.
* `Date.now()` is an environment input: each `process` call takes the clock
  value it observes as an explicit `clock : Nat` argument (the code stamps
  slots and history entries with `Date.now()`).
* `Math.random()` is an environment input: each call takes a `rand : Nat`
  argument and the random branch picks `startIdx + rand % (endIdx - startIdx)`,
  mirroring `startIdx + Math.floor(Math.random() * (endIdx - startIdx))`.
* The JS `Array.findIndex` (returning `-1` for "absent") is embedded as an
  `Option Nat`-valued `findIndex`; the `-1` sentinel becomes `none`.
* The JS `Set` `addressesEverSeen` is embedded as a `List Nat` queried through
  `List.contains`.
* The `mainMemory` display array, toasts, and all animation state are
  presentation glue (out of scope per the spec) and are not modelled; the
  net effect of one `processAddress` call on the simulator state
  (cache, stats, history, addressesEverSeen) is modelled atomically.
-/

/-- Cache mapping types (`MAPPING_TYPES` in the source). -/
inductive MappingType where
  | direct
  | fullyAssociative
  | setAssociative
deriving DecidableEq, Repr

/-- Replacement policies (`REPLACEMENT_POLICIES` in the source). -/
inductive ReplacementPolicy where
  | fifo
  | lru
  | lfu
  | random
deriving DecidableEq, Repr

/-- Access outcome recorded in a history entry (`result: "hit" | "miss"`). -/
inductive AccessResult where
  | hit
  | miss
deriving DecidableEq, Repr, Inhabited

/-- Miss classification (`missType: "compulsory" | "capacity" | "both"`). -/
inductive MissType where
  | compulsory
  | capacity
  | both
deriving DecidableEq, Repr, Inhabited

/-- `CACHE_SIZE = 8`: number of cache blocks. -/
def CACHE_SIZE : Nat := 8

/-- `SET_SIZE = 2`: blocks per set for set-associative mapping. -/
def SET_SIZE : Nat := 2

/-- `ADDRESS_BITS = 20`: number of bits in an address (up to 1048575). -/
def ADDRESS_BITS : Nat := 20

/-- `OFFSET_BITS = 5`: bits for the block offset. -/
def OFFSET_BITS : Nat := 5

/-- One cache slot: `{ address, timestamp, frequency, tag }` in the source.
The source keeps a single `timestamp` field per block: it is written on
install (`handleCacheMiss`) and rewritten on every hit (`handleCacheHit`),
and both the FIFO and the LRU branch of `findReplacementIndex` read it. -/
structure CacheBlock where
  address : Option Nat
  timestamp : Nat
  frequency : Nat
  tag : Option Nat
deriving DecidableEq, Repr, Inhabited

/-- The block a freshly reset slot holds (`resetCache` fills the cache with
`{ address: null, timestamp: 0, frequency: 0, tag: null }`). -/
def emptyBlock : CacheBlock :=
  { address := none, timestamp := 0, frequency := 0, tag := none }

/-- Hit/miss statistics (`stats` state). -/
structure Stats where
  hits : Nat
  compulsoryMisses : Nat
  capacityMisses : Nat
deriving DecidableEq, Repr, Inhabited

/-- One entry of the access history (`HistoryEntry` in the source). -/
structure HistoryEntry where
  address : Nat
  tag : Nat
  index : Nat
  offset : Nat
  result : AccessResult
  missType : Option MissType
  timestamp : Nat
deriving DecidableEq, Repr, Inhabited

/-- The simulator-owned state: cache blocks, statistics, access history
(most-recent-first) and the set of addresses ever seen since the last reset. -/
structure SimState where
  cache : List CacheBlock
  stats : Stats
  history : List HistoryEntry
  addressesEverSeen : List Nat
deriving DecidableEq, Repr, Inhabited

/-- `getIndexBits`: `log2(CACHE_SIZE)` for direct mapping,
`log2(CACHE_SIZE / SET_SIZE)` for set-associative, `0` for fully associative. -/
def getIndexBits (m : MappingType) : Nat :=
  match m with
  | .direct => Nat.log2 CACHE_SIZE
  | .setAssociative => Nat.log2 (CACHE_SIZE / SET_SIZE)
  | .fullyAssociative => 0

/-- Result of `getAddressComponents`. -/
structure AddressComponents where
  tag : Nat
  index : Nat
  offset : Nat
deriving DecidableEq, Repr

/-- `getAddressComponents`: `offset = address & ((1 << offsetBits) - 1)`;
`index = address % 8` (direct), `address % 4` (set-associative), `0` otherwise;
`tag = address >> (indexBits + offsetBits)`.  A pure function of the address
and the mapping type, independent of simulator state. -/
def getAddressComponents (m : MappingType) (address : Nat) : AddressComponents :=
  let indexBits := getIndexBits m
  let offset := address &&& ((1 <<< OFFSET_BITS) - 1)
  let index : Nat :=
    match m with
    | .direct => address % 8
    | .setAssociative => address % 4
    | .fullyAssociative => 0
  let tag := address >>> (indexBits + OFFSET_BITS)
  { tag := tag, index := index, offset := offset }

/-- JS `Array.prototype.findIndex`, with `none` in place of `-1`. -/
def findIndex {α : Type} (p : α → Bool) : List α → Option Nat
  | [] => none
  | b :: rest => if p b then some 0 else (findIndex p rest).map (· + 1)

/-- The `reduce` used by `findReplacementIndex`:
`arr.reduce((minIdx, block, idx, arr) => f(block) < f(arr[minIdx]) ? idx : minIdx, 0)`,
i.e. the lowest index of `arr` attaining the minimal `f`-value (0 on `[]`). -/
def reduceMinIdx (f : CacheBlock → Nat) (arr : List CacheBlock) : Nat :=
  (List.range arr.length).foldl
    (fun minIdx idx =>
      if f (arr.getD idx emptyBlock) < f (arr.getD minIdx emptyBlock) then idx else minIdx)
    0

/-- `findReplacementIndex(startIdx, endIdx)`: slice the candidate blocks, take
the first empty one if any, otherwise apply the configured replacement policy.
The FIFO and the LRU branch are textually identical in the source: both take
the candidate with the lowest `timestamp`. -/
def findReplacementIndex (policy : ReplacementPolicy) (rand : Nat)
    (cache : List CacheBlock) (startIdx endIdx : Nat) : Nat :=
  let candidateBlocks := (cache.drop startIdx).take (endIdx - startIdx)
  match findIndex (fun b => b.address.isNone) candidateBlocks with
  | some emptyIdx => startIdx + emptyIdx
  | none =>
    match policy with
    | .fifo => startIdx + reduceMinIdx (fun b => b.timestamp) candidateBlocks
    | .lru => startIdx + reduceMinIdx (fun b => b.timestamp) candidateBlocks
    | .lfu => startIdx + reduceMinIdx (fun b => b.frequency) candidateBlocks
    | .random => startIdx + rand % (endIdx - startIdx)

/-- `findAddressInCache`: hit lookup.  Direct mapping probes the single slot
`index`; fully associative scans all blocks; set-associative scans the
`SET_SIZE` slots of the computed set in order. -/
def findAddressInCache (m : MappingType) (cache : List CacheBlock) (address : Nat) :
    Option Nat :=
  let comps := getAddressComponents m address
  match m with
  | .direct =>
      if (cache.getD comps.index emptyBlock).address = some address then
        some comps.index
      else
        none
  | .fullyAssociative => findIndex (fun b => b.address = some address) cache
  | .setAssociative =>
      let startIdx := comps.index * SET_SIZE
      match (List.range SET_SIZE).find?
          (fun i => (cache.getD (startIdx + i) emptyBlock).address = some address) with
      | some i => some (startIdx + i)
      | none => none

/-- The miss-path victim computation of `processAddress`: returns the pair
`(willReplace, finalIndex)` exactly as the source computes them.
Direct: the forced slot and whether it is occupied.  Fully associative:
whether every block is occupied, and `findReplacementIndex(0, CACHE_SIZE)`.
Set-associative: the first empty slot of the set if any, else
`findReplacementIndex` over the set. -/
def chooseVictim (m : MappingType) (p : ReplacementPolicy) (rand : Nat)
    (cache : List CacheBlock) (index : Nat) : Bool × Nat :=
  match m with
  | .direct =>
      ((cache.getD index emptyBlock).address.isSome, index)
  | .fullyAssociative =>
      (cache.all (fun b => b.address.isSome), findReplacementIndex p rand cache 0 CACHE_SIZE)
  | .setAssociative =>
      let startIdx := index * SET_SIZE
      match (List.range SET_SIZE).find?
          (fun i => (cache.getD (startIdx + i) emptyBlock).address.isNone) with
      | some i => (false, startIdx + i)
      | none => (true, findReplacementIndex p rand cache startIdx (startIdx + SET_SIZE))

/-- The stats update of `handleCacheMiss`: compulsory and capacity misses bump
their own counter; a "both" miss bumps both counters in the one call. -/
def bumpStats (st : Stats) (mt : MissType) : Stats :=
  match mt with
  | .compulsory => { st with compulsoryMisses := st.compulsoryMisses + 1 }
  | .capacity => { st with capacityMisses := st.capacityMisses + 1 }
  | .both =>
      { st with
        compulsoryMisses := st.compulsoryMisses + 1,
        capacityMisses := st.capacityMisses + 1 }

/-- `processAddress(address)`: the net state transition of one call, with the
observed `Date.now()` value (`clock`) and the `Math.random()` draw (`rand`)
as explicit inputs.  On a hit: bump `hits`, restamp the slot's timestamp,
bump its frequency, prepend a hit record.  On a miss: classify from
(first time?, will replace?), overwrite the victim slot with
`{ address, timestamp: clock, frequency: 1, tag }`, bump stats per the
classification, record the address as seen, prepend a miss record. -/
def processAddress (m : MappingType) (p : ReplacementPolicy) (clock rand : Nat)
    (s : SimState) (address : Nat) : SimState :=
  let comps := getAddressComponents m address
  match findAddressInCache m s.cache address with
  | some cacheIndex =>
      let oldBlock := s.cache.getD cacheIndex emptyBlock
      { s with
        stats := { s.stats with hits := s.stats.hits + 1 },
        cache := s.cache.set cacheIndex
          { oldBlock with timestamp := clock, frequency := oldBlock.frequency + 1 },
        history :=
          { address := address, tag := comps.tag, index := comps.index,
            offset := comps.offset, result := .hit, missType := none,
            timestamp := clock } :: s.history }
  | none =>
      let isAddressFirstTime := ! s.addressesEverSeen.contains address
      let wv := chooseVictim m p rand s.cache comps.index
      let missType : MissType :=
        if isAddressFirstTime then
          (if wv.1 then .both else .compulsory)
        else
          (if wv.1 then .capacity else .compulsory)
      { cache := s.cache.set wv.2
          { address := some address, timestamp := clock, frequency := 1,
            tag := some comps.tag },
        stats := bumpStats s.stats missType,
        history :=
          { address := address, tag := comps.tag, index := comps.index,
            offset := comps.offset, result := .miss, missType := some missType,
            timestamp := clock } :: s.history,
        addressesEverSeen := address :: s.addressesEverSeen }

/-- `resetCache`: every slot empty, stats zeroed, history emptied, seen-set
cleared. -/
def resetCache : SimState :=
  { cache := List.replicate CACHE_SIZE emptyBlock,
    stats := { hits := 0, compulsoryMisses := 0, capacityMisses := 0 },
    history := [],
    addressesEverSeen := [] }

/-- One UI-driven event: a `processAddress` call together with the clock and
random values it observes, or a `resetCache` call. -/
inductive Event where
  | proc (clock rand address : Nat)
  | reset
deriving DecidableEq, Repr

/-- Apply one event to a state. -/
def applyEvent (m : MappingType) (p : ReplacementPolicy) (s : SimState) :
    Event → SimState
  | .proc clock rand address => processAddress m p clock rand s address
  | .reset => resetCache

/-- Run a sequence of events from the freshly initialized state (the component
calls `resetCache` on mount). -/
def run (m : MappingType) (p : ReplacementPolicy) (events : List Event) : SimState :=
  events.foldl (applyEvent m p) resetCache

/-- Typed failure of the address submit handler: the source rejects the input
with an "Invalid address" toast and returns without touching any state. -/
inductive SimulatorError where
  | invalidAddress
deriving DecidableEq, Repr

/-- `handleAddressSubmit`: the validation boundary.  An input that is negative
or exceeds `1048575` is rejected as `invalidAddress` and the simulator state is
left untouched; otherwise `processAddress` runs.  (The `isNaN` branch of the
source guards non-numeric text, which an `Int` input cannot represent.) -/
def handleAddressSubmit (m : MappingType) (p : ReplacementPolicy) (clock rand : Nat)
    (s : SimState) (addressInput : Int) : Except SimulatorError SimState :=
  if addressInput < 0 ∨ addressInput > 1048575 then
    Except.error SimulatorError.invalidAddress
  else
    Except.ok (processAddress m p clock rand s addressInput.toNat)

/-- Number of history entries that are capacity-only misses. -/
def capacityOnlyCount (h : List HistoryEntry) : Nat :=
  (h.filter (fun e => e.missType = some MissType.capacity)).length

/-- The number of `process` calls since the last reset in an event sequence. -/
def procCountSinceReset (events : List Event) : Nat :=
  events.foldl
    (fun n e =>
      match e with
      | .proc _ _ _ => n + 1
      | .reset => 0)
    0

/-! ## Helper lemmas about the list operations of the engine -/

theorem findIndex_eq_none {α : Type} {p : α → Bool} {l : List α} :
    findIndex p l = none ↔ ∀ b ∈ l, p b = false := by
  induction l with
  | nil => simp [findIndex]
  | cons x xs ih =>
    by_cases hx : p x = true
    · simp [findIndex, hx, List.forall_mem_cons]
    · have hx' : p x = false := by revert hx; cases p x <;> simp
      simp [findIndex, hx', ih, List.forall_mem_cons]

theorem findIndex_some {α : Type} {p : α → Bool} {l : List α} {i : Nat}
    (h : findIndex p l = some i) : ∃ b, l[i]? = some b ∧ p b = true := by
  induction l generalizing i with
  | nil => simp [findIndex] at h
  | cons x xs ih =>
    by_cases hx : p x = true
    · simp only [findIndex, hx, if_true, Option.some.injEq] at h
      subst h
      exact ⟨x, by simp, hx⟩
    · have hx' : p x = false := by revert hx; cases p x <;> simp
      simp only [findIndex, hx', Bool.false_eq_true, if_false,
        Option.map_eq_some'] at h
      obtain ⟨j, hj, rfl⟩ := h
      obtain ⟨b, hb, hpb⟩ := ih hj
      exact ⟨b, by simpa using hb, hpb⟩

theorem findIndex_lt_length {α : Type} {p : α → Bool} {l : List α} {i : Nat}
    (h : findIndex p l = some i) : i < l.length := by
  obtain ⟨b, hb, -⟩ := findIndex_some h
  exact (List.getElem?_eq_some.mp hb).1

theorem foldl_pick_lt {n : Nat} (g : Nat → Nat → Nat)
    (hg : ∀ a b, g a b = a ∨ g a b = b) :
    ∀ (l : List Nat) (acc : Nat), acc < n → (∀ x ∈ l, x < n) →
      l.foldl g acc < n := by
  intro l
  induction l with
  | nil => intro acc h _; simpa using h
  | cons x xs ih =>
    intro acc h hm
    simp only [List.foldl_cons]
    have hx : x < n := hm x (by simp)
    have hgax : g acc x < n := by
      rcases hg acc x with h1 | h1 <;> rw [h1] <;> assumption
    exact ih (g acc x) hgax (fun y hy => hm y (by simp [hy]))

theorem reduceMinIdx_lt (f : CacheBlock → Nat) (arr : List CacheBlock)
    (h : arr ≠ []) : reduceMinIdx f arr < arr.length := by
  have hpos : 0 < arr.length := List.length_pos.mpr h
  unfold reduceMinIdx
  refine foldl_pick_lt _ (fun a b => ?_) (List.range arr.length) 0 hpos
    (fun x hx => List.mem_range.mp hx)
  by_cases hc : f (arr.getD b emptyBlock) < f (arr.getD a emptyBlock)
  · rw [if_pos hc]
    exact Or.inr rfl
  · rw [if_neg hc]
    exact Or.inl rfl

theorem getD_slice (cache : List CacheBlock) (s n k : Nat) (hk : k < n) :
    ((cache.drop s).take n).getD k emptyBlock = cache.getD (s + k) emptyBlock := by
  simp [List.getD_eq_getElem?_getD, List.getElem?_take_of_lt hk, List.getElem?_drop]

theorem length_slice (cache : List CacheBlock) (s n : Nat) :
    ((cache.drop s).take n).length = min n (cache.length - s) := by
  simp

theorem getD_mem {l : List CacheBlock} {i : Nat} (h : i < l.length) :
    l.getD i emptyBlock ∈ l := by
  rw [List.getD_eq_getElem l emptyBlock h]
  exact List.getElem_mem h

/-! ## Range and occupancy facts about victim selection -/

theorem findReplacementIndex_ge (p : ReplacementPolicy) (rand : Nat)
    (cache : List CacheBlock) (s e : Nat) :
    s ≤ findReplacementIndex p rand cache s e := by
  unfold findReplacementIndex
  cases hfi : findIndex (fun b => b.address.isNone) ((cache.drop s).take (e - s)) with
  | some i => simp [hfi]
  | none => cases p <;> simp [hfi]

theorem findReplacementIndex_lt (p : ReplacementPolicy) (rand : Nat)
    (cache : List CacheBlock) (s e : Nat) (hse : s < e) (he : e ≤ cache.length) :
    findReplacementIndex p rand cache s e < e := by
  unfold findReplacementIndex
  have hlen : ((cache.drop s).take (e - s)).length = e - s := by
    rw [length_slice]
    omega
  cases hfi : findIndex (fun b => b.address.isNone) ((cache.drop s).take (e - s)) with
  | some i =>
    have hi := findIndex_lt_length hfi
    rw [hlen] at hi
    simp only [hfi]
    omega
  | none =>
    have hne : ((cache.drop s).take (e - s)) ≠ [] := by
      intro hnil
      rw [hnil] at hlen
      simp at hlen
      omega
    have hmin1 := reduceMinIdx_lt (fun b => b.timestamp) _ hne
    have hmin2 := reduceMinIdx_lt (fun b => b.frequency) _ hne
    rw [hlen] at hmin1 hmin2
    have hrand : rand % (e - s) < e - s := Nat.mod_lt _ (by omega)
    cases p <;> simp only [hfi] <;> omega

theorem findReplacementIndex_occupied (p : ReplacementPolicy) (rand : Nat)
    (cache : List CacheBlock) (s e : Nat) (hse : s < e) (he : e ≤ cache.length)
    (hocc : ∀ k, s ≤ k → k < e → (cache.getD k emptyBlock).address.isSome = true) :
    (cache.getD (findReplacementIndex p rand cache s e) emptyBlock).address.isSome = true :=
  hocc _ (findReplacementIndex_ge p rand cache s e)
    (findReplacementIndex_lt p rand cache s e hse he)

/-- `willReplace` as computed by the miss path agrees with "the selected victim
slot was occupied beforehand", for every mapping type and policy, on caches of
the configured length. -/
theorem chooseVictim_fst_eq (m : MappingType) (p : ReplacementPolicy) (rand : Nat)
    (cache : List CacheBlock) (a : Nat) (hlen : cache.length = CACHE_SIZE) :
    (chooseVictim m p rand cache (getAddressComponents m a).index).1 =
      (cache.getD (chooseVictim m p rand cache (getAddressComponents m a).index).2
        emptyBlock).address.isSome := by
  cases m with
  | direct => rfl
  | fullyAssociative =>
    simp only [chooseVictim]
    by_cases hall : cache.all (fun b => b.address.isSome) = true
    · rw [hall]
      symm
      apply findReplacementIndex_occupied p rand cache 0 CACHE_SIZE
        (by simp [CACHE_SIZE]) (le_of_eq hlen.symm)
      intro k _ hk
      have hk' : k < cache.length := by omega
      exact List.all_eq_true.mp hall _ (getD_mem hk')
    · have hall' : cache.all (fun b => b.address.isSome) = false := by
        revert hall
        cases cache.all (fun b => b.address.isSome) <;> simp
      rw [hall']
      obtain ⟨b, hbmem, hbns⟩ := List.all_eq_false.mp hall'
      have hne : findIndex (fun bl => bl.address.isNone) cache ≠ none := by
        intro hfi
        have hall2 := findIndex_eq_none.mp hfi
        have h1 := hall2 b hbmem
        cases hba : b.address with
        | none => rw [hba] at h1; simp at h1
        | some v => rw [hba] at hbns; simp at hbns
      obtain ⟨j, hj⟩ : ∃ j, findIndex (fun bl => bl.address.isNone) cache = some j := by
        cases hfi : findIndex (fun bl => bl.address.isNone) cache with
        | none => exact absurd hfi hne
        | some j => exact ⟨j, rfl⟩
      obtain ⟨bj, hbj, hbjn⟩ := findIndex_some hj
      have hcand : (cache.drop 0).take (CACHE_SIZE - 0) = cache := by
        simp [List.take_of_length_le (le_of_eq hlen)]
      have hr : findReplacementIndex p rand cache 0 CACHE_SIZE = j := by
        simp only [findReplacementIndex, hcand, hj, Nat.zero_add]
      rw [hr]
      have hgd : cache.getD j emptyBlock = bj := by
        rw [List.getD_eq_getElem?_getD, hbj]
        rfl
      rw [hgd]
      cases hbja : bj.address with
      | none => simp
      | some v => rw [hbja] at hbjn; simp at hbjn
  | setAssociative =>
    have hidx : (getAddressComponents .setAssociative a).index < 4 := by
      simp only [getAddressComponents]
      exact Nat.mod_lt _ (by omega)
    simp only [chooseVictim]
    cases hfind : (List.range SET_SIZE).find?
        (fun i => (cache.getD ((getAddressComponents .setAssociative a).index * SET_SIZE + i)
          emptyBlock).address.isNone) with
    | some i =>
      simp only [hfind]
      have hpi := List.find?_some hfind
      cases hba : (cache.getD ((getAddressComponents .setAssociative a).index * SET_SIZE + i)
          emptyBlock).address with
      | none => simp [hba]
      | some v => rw [hba] at hpi; simp at hpi
    | none =>
      simp only [hfind]
      symm
      apply findReplacementIndex_occupied p rand cache _ _ (by simp [SET_SIZE]) (by
        rw [hlen]
        simp only [CACHE_SIZE, SET_SIZE]
        omega)
      intro k hk1 hk2
      have hforall := List.find?_eq_none.mp hfind
      have hkr : k - (getAddressComponents .setAssociative a).index * SET_SIZE ∈
          List.range SET_SIZE := by
        rw [List.mem_range]
        omega
      have h2 := hforall _ hkr
      have hks : (getAddressComponents .setAssociative a).index * SET_SIZE +
          (k - (getAddressComponents .setAssociative a).index * SET_SIZE) = k := by
        omega
      rw [hks] at h2
      cases hba : (cache.getD k emptyBlock).address with
      | none => rw [hba] at h2; simp at h2
      | some v => simp [hba]

/-! ## Reachability invariants -/

/-- Every address resident in a cache slot has been recorded in
`addressesEverSeen`. -/
def seenInvariant (s : SimState) : Prop :=
  ∀ b ∈ s.cache, ∀ x, b.address = some x → s.addressesEverSeen.contains x = true

theorem seenInvariant_reset : seenInvariant resetCache := by
  intro b hb x hx
  have hb' := List.eq_of_mem_replicate hb
  rw [hb'] at hx
  simp [emptyBlock] at hx

theorem seenInvariant_process (m : MappingType) (p : ReplacementPolicy)
    (clock rand : Nat) (s : SimState) (a : Nat) (h : seenInvariant s) :
    seenInvariant (processAddress m p clock rand s a) := by
  intro b hb x hx
  cases hfind : findAddressInCache m s.cache a with
  | some i =>
    simp only [processAddress, hfind] at hb ⊢
    rcases List.mem_or_eq_of_mem_set hb with hmem | rfl
    · exact h b hmem x hx
    · simp only at hx
      by_cases hi : i < s.cache.length
      · exact h _ (getD_mem hi) x hx
      · rw [List.getD_eq_getElem?_getD, List.getElem?_eq_none (by omega)] at hx
        simp [emptyBlock] at hx
  | none =>
    simp only [processAddress, hfind] at hb ⊢
    rcases List.mem_or_eq_of_mem_set hb with hmem | rfl
    · have hc := h b hmem x hx
      simp only [List.contains_cons, hc, Bool.or_true]
    · simp only at hx
      cases hx
      simp

theorem seenInvariant_run (m : MappingType) (p : ReplacementPolicy)
    (events : List Event) : seenInvariant (run m p events) := by
  have key : ∀ s, seenInvariant s →
      seenInvariant (List.foldl (applyEvent m p) s events) := by
    induction events with
    | nil => intro s hs; exact hs
    | cons e es ih =>
      intro s hs
      simp only [List.foldl_cons]
      apply ih
      cases e with
      | proc c r a => exact seenInvariant_process m p c r s a hs
      | reset => exact seenInvariant_reset
  exact key resetCache seenInvariant_reset

/-! ## Stats and history bookkeeping of one call -/

theorem process_stats_history (m : MappingType) (p : ReplacementPolicy)
    (clock rand : Nat) (s : SimState) (a : Nat) :
    (processAddress m p clock rand s a).stats.hits +
        (processAddress m p clock rand s a).stats.compulsoryMisses +
        capacityOnlyCount (processAddress m p clock rand s a).history =
      s.stats.hits + s.stats.compulsoryMisses + capacityOnlyCount s.history + 1 ∧
    (processAddress m p clock rand s a).history.length = s.history.length + 1 := by
  cases hfind : findAddressInCache m s.cache a with
  | some i =>
    constructor
    · simp [processAddress, hfind, capacityOnlyCount]
      omega
    · simp [processAddress, hfind]
  | none =>
    by_cases hfirst : a ∈ s.addressesEverSeen <;>
      cases hrep : (chooseVictim m p rand s.cache (getAddressComponents m a).index).1 <;>
      refine ⟨?_, ?_⟩ <;>
      simp [processAddress, hfind, hfirst, hrep, capacityOnlyCount, bumpStats] <;>
      omega

theorem run_stats_aux (m : MappingType) (p : ReplacementPolicy) :
    ∀ (events : List Event) (s : SimState),
      s.stats.hits + s.stats.compulsoryMisses + capacityOnlyCount s.history =
        s.history.length →
      (List.foldl (applyEvent m p) s events).stats.hits +
          (List.foldl (applyEvent m p) s events).stats.compulsoryMisses +
          capacityOnlyCount (List.foldl (applyEvent m p) s events).history =
        (List.foldl (applyEvent m p) s events).history.length := by
  intro events
  induction events with
  | nil => intro s hs; exact hs
  | cons e es ih =>
    intro s hs
    simp only [List.foldl_cons]
    apply ih
    cases e with
    | proc c r a =>
      obtain ⟨h1, h2⟩ := process_stats_history m p c r s a
      simp only [applyEvent]
      omega
    | reset => simp [applyEvent, resetCache, capacityOnlyCount]

theorem run_length_aux (m : MappingType) (p : ReplacementPolicy) :
    ∀ (events : List Event) (s : SimState) (acc : Nat),
      s.history.length = acc →
      (List.foldl (applyEvent m p) s events).history.length =
        List.foldl
          (fun n e =>
            match e with
            | .proc _ _ _ => n + 1
            | .reset => 0)
          acc events := by
  intro events
  induction events with
  | nil => intro s acc hs; simpa using hs
  | cons e es ih =>
    intro s acc hs
    simp only [List.foldl_cons]
    cases e with
    | proc c r a =>
      apply ih
      obtain ⟨-, h2⟩ := process_stats_history m p c r s a
      simp only [applyEvent]
      omega
    | reset =>
      apply ih
      simp [applyEvent, resetCache]

/-! ## Lookup and victim-index range facts -/

theorem findAddressInCache_some (m : MappingType) (cache : List CacheBlock)
    (a i : Nat) (h : findAddressInCache m cache a = some i) :
    i < cache.length ∧ (cache.getD i emptyBlock).address = some a := by
  cases m with
  | direct =>
    simp only [findAddressInCache] at h
    by_cases hc : (cache.getD (getAddressComponents .direct a).index emptyBlock).address
        = some a
    · rw [if_pos hc] at h
      cases h
      refine ⟨?_, hc⟩
      by_contra hlt
      push_neg at hlt
      rw [List.getD_eq_getElem?_getD, List.getElem?_eq_none hlt] at hc
      simp [emptyBlock] at hc
    · rw [if_neg hc] at h
      cases h
  | fullyAssociative =>
    simp only [findAddressInCache] at h
    obtain ⟨b, hb, hpb⟩ := findIndex_some h
    have hlt := (List.getElem?_eq_some.mp hb).1
    refine ⟨hlt, ?_⟩
    rw [List.getD_eq_getElem?_getD, hb]
    simpa using hpb
  | setAssociative =>
    simp only [findAddressInCache] at h
    cases hfind : (List.range SET_SIZE).find?
        (fun j => (cache.getD ((getAddressComponents .setAssociative a).index * SET_SIZE + j)
          emptyBlock).address = some a) with
    | none => rw [hfind] at h; cases h
    | some j =>
      rw [hfind] at h
      cases h
      have hpj := List.find?_some hfind
      have haddr : (cache.getD ((getAddressComponents .setAssociative a).index * SET_SIZE + j)
          emptyBlock).address = some a := by simpa using hpj
      refine ⟨?_, haddr⟩
      by_contra hlt
      push_neg at hlt
      rw [List.getD_eq_getElem?_getD, List.getElem?_eq_none hlt] at haddr
      simp [emptyBlock] at haddr

theorem chooseVictim_snd_lt (m : MappingType) (p : ReplacementPolicy) (rand : Nat)
    (cache : List CacheBlock) (a : Nat) (hlen : cache.length = CACHE_SIZE) :
    (chooseVictim m p rand cache (getAddressComponents m a).index).2 < cache.length := by
  cases m with
  | direct =>
    show (getAddressComponents .direct a).index < cache.length
    have : a % 8 < 8 := Nat.mod_lt _ (by omega)
    rw [hlen]
    exact this
  | fullyAssociative =>
    show findReplacementIndex p rand cache 0 CACHE_SIZE < cache.length
    rw [hlen]
    exact findReplacementIndex_lt p rand cache 0 CACHE_SIZE (by decide)
      (le_of_eq hlen.symm)
  | setAssociative =>
    have hidx : (getAddressComponents .setAssociative a).index < 4 := by
      simp only [getAddressComponents]
      exact Nat.mod_lt _ (by omega)
    rw [hlen]
    simp only [chooseVictim]
    cases hfind : (List.range SET_SIZE).find?
        (fun i => (cache.getD ((getAddressComponents .setAssociative a).index * SET_SIZE + i)
          emptyBlock).address.isNone) with
    | some i =>
      simp only [hfind]
      have hi : i < SET_SIZE := List.mem_range.mp (List.mem_of_find?_eq_some hfind)
      simp only [SET_SIZE] at hi
      simp only [SET_SIZE, CACHE_SIZE]
      omega
    | none =>
      simp only [hfind]
      have hfr := findReplacementIndex_lt p rand cache
        ((getAddressComponents .setAssociative a).index * SET_SIZE)
        ((getAddressComponents .setAssociative a).index * SET_SIZE + SET_SIZE)
        (by simp [SET_SIZE]) (by rw [hlen]; simp only [CACHE_SIZE, SET_SIZE]; omega)
      simp only [SET_SIZE, CACHE_SIZE] at hfr ⊢
      omega

theorem process_cache_length (m : MappingType) (p : ReplacementPolicy)
    (clock rand : Nat) (s : SimState) (a : Nat) :
    (processAddress m p clock rand s a).cache.length = s.cache.length := by
  cases hfind : findAddressInCache m s.cache a <;> simp [processAddress, hfind]

theorem run_cache_length (m : MappingType) (p : ReplacementPolicy)
    (events : List Event) : (run m p events).cache.length = CACHE_SIZE := by
  have key : ∀ s : SimState, s.cache.length = CACHE_SIZE →
      (List.foldl (applyEvent m p) s events).cache.length = CACHE_SIZE := by
    induction events with
    | nil => intro s hs; exact hs
    | cons e es ih =>
      intro s hs
      simp only [List.foldl_cons]
      apply ih
      cases e with
      | proc c r a => rw [applyEvent, process_cache_length]; exact hs
      | reset => simp [applyEvent, resetCache]
  exact key resetCache (by simp [resetCache])

/-! ## Claim theorems -/

/-- C10: the FIFO and LRU branches of victim selection are the same function:
for every cache state, random draw and candidate range, `findReplacementIndex`
returns the same slot index under FIFO as under LRU (both reduce over the
single `timestamp` field, taking the lowest-indexed minimal candidate). -/
theorem fifo_lru_same_function (rand : Nat) (cache : List CacheBlock)
    (startIdx endIdx : Nat) :
    findReplacementIndex .fifo rand cache startIdx endIdx =
      findReplacementIndex .lru rand cache startIdx endIdx := by
  unfold findReplacementIndex
  cases findIndex (fun b => b.address.isNone)
      ((cache.drop startIdx).take (endIdx - startIdx)) <;> rfl

/-- Trace exhibiting the FIFO slip: fill all eight slots with addresses 0..7
at clocks 1..8 (fully associative), then hit address 0 at clock 9. -/
def fifoBugTrace : List Event :=
  [Event.proc 1 0 0, Event.proc 2 0 1, Event.proc 3 0 2, Event.proc 4 0 3,
   Event.proc 5 0 4, Event.proc 6 0 5, Event.proc 7 0 6, Event.proc 8 0 7,
   Event.proc 9 0 0]

/-- C1 (code bug): after `fifoBugTrace` every slot is occupied, slot 0 still
holds address 0 — the block installed **earliest** (clock 1) — and slot 1
holds address 1 (installed at clock 2).  Yet FIFO victim selection returns
slot 1, not slot 0, because the hit at clock 9 rewrote slot 0's single
`timestamp` field: the next miss (address 8 at clock 10) therefore evicts
address 1 and leaves address 0 resident.  An intervening hit *does* change a
block's standing in FIFO eviction order, contradicting the claim. -/
theorem fifo_evicts_refreshed_not_oldest :
    (run .fullyAssociative .fifo fifoBugTrace).cache.all
        (fun b => b.address.isSome) = true ∧
    ((run .fullyAssociative .fifo fifoBugTrace).cache.getD 0 emptyBlock).address
        = some 0 ∧
    ((run .fullyAssociative .fifo fifoBugTrace).cache.getD 0 emptyBlock).timestamp = 9 ∧
    ((run .fullyAssociative .fifo fifoBugTrace).cache.getD 1 emptyBlock).address
        = some 1 ∧
    ((run .fullyAssociative .fifo fifoBugTrace).cache.getD 1 emptyBlock).timestamp = 2 ∧
    findReplacementIndex .fifo 0 (run .fullyAssociative .fifo fifoBugTrace).cache
        0 CACHE_SIZE = 1 ∧
    ((run .fullyAssociative .fifo (fifoBugTrace ++ [Event.proc 10 0 8])).cache.getD 1
        emptyBlock).address = some 8 ∧
    ((run .fullyAssociative .fifo (fifoBugTrace ++ [Event.proc 10 0 8])).cache.getD 0
        emptyBlock).address = some 0 := by
  decide

/-- Two `process` calls observing the same `Date.now()` value. -/
def sameTickTrace : List Event := [Event.proc 5 0 0, Event.proc 5 0 1]

/-- C4 (counterexample): the program maintains no tick counter of its own;
it stamps events with the ambient `Date.now()` value.  Two distinct accesses
(addresses 0 and 1) that observe the same clock value record the identical
tick, refuting "no two accesses ever record the same tick value". -/
theorem two_accesses_share_tick :
    (run .fullyAssociative .fifo sameTickTrace).history.length = 2 ∧
    ((run .fullyAssociative .fifo sameTickTrace).history.getD 0 default).address = 1 ∧
    ((run .fullyAssociative .fifo sameTickTrace).history.getD 1 default).address = 0 ∧
    ((run .fullyAssociative .fifo sameTickTrace).history.getD 0 default).timestamp =
      ((run .fullyAssociative .fifo sameTickTrace).history.getD 1 default).timestamp := by
  decide

/-- C4 (amended): each `process` call stamps both the history record and the
touched slot's single timestamp field (serving the install-time and
last-access-time roles alike) with the one ambient clock value it observes,
and `reset` zeroes every slot timestamp; distinct calls record distinct ticks
only if the ambient clock differs between calls. -/
theorem tick_is_ambient_clock (m : MappingType) (p : ReplacementPolicy)
    (clock rand : Nat) (s : SimState) (a : Nat)
    (hlen : s.cache.length = CACHE_SIZE) :
    ((processAddress m p clock rand s a).history.head?.map (fun e => e.timestamp)
      = some clock) ∧
    (resetCache.cache.all (fun b => b.timestamp == 0) = true) ∧
    (match findAddressInCache m s.cache a with
      | some i =>
          ((processAddress m p clock rand s a).cache.getD i emptyBlock).timestamp = clock
      | none =>
          ((processAddress m p clock rand s a).cache.getD
            (chooseVictim m p rand s.cache (getAddressComponents m a).index).2
              emptyBlock).timestamp = clock) := by
  refine ⟨?_, by decide, ?_⟩
  · cases hfind : findAddressInCache m s.cache a <;> simp [processAddress, hfind]
  · cases hfind : findAddressInCache m s.cache a with
    | some i =>
      obtain ⟨hi, -⟩ := findAddressInCache_some m s.cache a i hfind
      simp only [processAddress, hfind]
      rw [List.getD_eq_getElem?_getD, List.getElem?_set_self (by simpa using hi)]
      rfl
    | none =>
      have hv := chooseVictim_snd_lt m p rand s.cache a hlen
      simp only [processAddress, hfind]
      rw [List.getD_eq_getElem?_getD, List.getElem?_set_self (by simpa using hv)]
      rfl

/-- Witness for `tick_is_ambient_clock` at a concrete miss. -/
theorem tick_is_ambient_clock_witness :
    ((processAddress .direct .fifo 42 0 resetCache 3).history.head?.map
        (fun e => e.timestamp) = some 42) ∧
    (resetCache.cache.all (fun b => b.timestamp == 0) = true) ∧
    (match findAddressInCache .direct resetCache.cache 3 with
      | some i =>
          ((processAddress .direct .fifo 42 0 resetCache 3).cache.getD i
            emptyBlock).timestamp = 42
      | none =>
          ((processAddress .direct .fifo 42 0 resetCache 3).cache.getD
            (chooseVictim .direct .fifo 0 resetCache.cache
              (getAddressComponents .direct 3).index).2 emptyBlock).timestamp = 42) :=
  tick_is_ambient_clock .direct .fifo 42 0 resetCache 3 (by decide)

/-- The classification table of the specification: miss kind as a function of
(first time seeing the address?, did the install evict an occupied slot?). -/
def missKindOf (isFirstTime causedEviction : Bool) : MissType :=
  match isFirstTime, causedEviction with
  | true, false => .compulsory
  | true, true => .both
  | false, true => .capacity
  | false, false => .compulsory

/-- C2: on every missing `process(a)` call the recorded miss kind equals
`missKindOf (a not yet seen) (selected victim slot was occupied beforehand)`,
and the counters move accordingly: `hits` unchanged, `compulsoryMisses`
incremented unless the kind is Capacity, `capacityMisses` incremented unless
the kind is Compulsory — so a Both miss increments both counters in the one
call. -/
theorem miss_classification (m : MappingType) (p : ReplacementPolicy)
    (clock rand : Nat) (s : SimState) (a : Nat)
    (hlen : s.cache.length = CACHE_SIZE)
    (hmiss : findAddressInCache m s.cache a = none) :
    (processAddress m p clock rand s a).history.head?.map
        (fun e => (e.result, e.missType)) =
      some (AccessResult.miss, some (missKindOf (! s.addressesEverSeen.contains a)
        ((s.cache.getD (chooseVictim m p rand s.cache
          (getAddressComponents m a).index).2 emptyBlock).address.isSome))) ∧
    (processAddress m p clock rand s a).stats.hits = s.stats.hits ∧
    (processAddress m p clock rand s a).stats.compulsoryMisses =
      s.stats.compulsoryMisses +
        (if missKindOf (! s.addressesEverSeen.contains a)
            ((s.cache.getD (chooseVictim m p rand s.cache
              (getAddressComponents m a).index).2 emptyBlock).address.isSome) =
            MissType.capacity then 0 else 1) ∧
    (processAddress m p clock rand s a).stats.capacityMisses =
      s.stats.capacityMisses +
        (if missKindOf (! s.addressesEverSeen.contains a)
            ((s.cache.getD (chooseVictim m p rand s.cache
              (getAddressComponents m a).index).2 emptyBlock).address.isSome) =
            MissType.compulsory then 0 else 1) := by
  have hv := chooseVictim_fst_eq m p rand s.cache a hlen
  by_cases hfirst : a ∈ s.addressesEverSeen <;>
    cases hocc : (s.cache.getD (chooseVictim m p rand s.cache
        (getAddressComponents m a).index).2 emptyBlock).address.isSome <;>
    rw [hocc] at hv <;>
    refine ⟨?_, ?_, ?_, ?_⟩ <;>
    simp [processAddress, hmiss, missKindOf, bumpStats, hfirst, hocc, hv]

/-- Witness for `miss_classification`: the very first access after a reset. -/
theorem miss_classification_witness :
    (processAddress .direct .fifo 1 0 resetCache 0).history.head?.map
        (fun e => (e.result, e.missType)) =
      some (AccessResult.miss, some (missKindOf
        (! resetCache.addressesEverSeen.contains 0)
        ((resetCache.cache.getD (chooseVictim .direct .fifo 0 resetCache.cache
          (getAddressComponents .direct 0).index).2 emptyBlock).address.isSome))) ∧
    (processAddress .direct .fifo 1 0 resetCache 0).stats.hits =
      resetCache.stats.hits ∧
    (processAddress .direct .fifo 1 0 resetCache 0).stats.compulsoryMisses =
      resetCache.stats.compulsoryMisses +
        (if missKindOf (! resetCache.addressesEverSeen.contains 0)
            ((resetCache.cache.getD (chooseVictim .direct .fifo 0 resetCache.cache
              (getAddressComponents .direct 0).index).2 emptyBlock).address.isSome) =
            MissType.capacity then 0 else 1) ∧
    (processAddress .direct .fifo 1 0 resetCache 0).stats.capacityMisses =
      resetCache.stats.capacityMisses +
        (if missKindOf (! resetCache.addressesEverSeen.contains 0)
            ((resetCache.cache.getD (chooseVictim .direct .fifo 0 resetCache.cache
              (getAddressComponents .direct 0).index).2 emptyBlock).address.isSome) =
            MissType.compulsory then 0 else 1) :=
  miss_classification .direct .fifo 1 0 resetCache 0 (by decide) (by decide)

/-- C3: since the last reset, `hits + compulsoryMisses + (number of
capacity-only misses)` equals the number of `process` calls: every call is
counted exactly once as an access, a Both miss contributing to
`compulsoryMisses` (and, double-counted, to `capacityMisses`). -/
theorem stats_consistency (m : MappingType) (p : ReplacementPolicy)
    (events : List Event) :
    (run m p events).stats.hits + (run m p events).stats.compulsoryMisses +
        capacityOnlyCount (run m p events).history =
      procCountSinceReset events := by
  have h1 := run_stats_aux m p events resetCache
    (by simp [resetCache, capacityOnlyCount])
  have h2 := run_length_aux m p events resetCache 0 (by simp [resetCache])
  exact h1.trans h2

/-- C5: address decomposition, for every valid address: the offset is
`a mod 2^offsetBits`; the direct-mapped index is `a mod cacheCapacity`; the
set-associative index is `a mod (cacheCapacity / setSize)`; the tag is
`a >> (indexBits + offsetBits)` i.e. `a / 2^(indexBits + offsetBits)` with
`indexBits = log2(cacheCapacity)`, `log2(cacheCapacity / setSize)`, and `0`
respectively — all pure functions of the address and the configuration. -/
theorem decompose_correct (m : MappingType) (a : Nat)
    (_h : a < 2 ^ ADDRESS_BITS) :
    (getAddressComponents m a).offset = a % 2 ^ OFFSET_BITS ∧
    (getAddressComponents .direct a).index = a % CACHE_SIZE ∧
    (getAddressComponents .setAssociative a).index = a % (CACHE_SIZE / SET_SIZE) ∧
    (getAddressComponents m a).tag = a / 2 ^ (getIndexBits m + OFFSET_BITS) ∧
    getIndexBits .direct = Nat.log2 CACHE_SIZE ∧
    getIndexBits .setAssociative = Nat.log2 (CACHE_SIZE / SET_SIZE) ∧
    getIndexBits .fullyAssociative = 0 := by
  refine ⟨?_, rfl, rfl, ?_, rfl, rfl, rfl⟩
  · show a &&& ((1 <<< OFFSET_BITS) - 1) = a % 2 ^ OFFSET_BITS
    rw [Nat.shiftLeft_eq, one_mul, Nat.and_pow_two_sub_one_eq_mod]
  · show a >>> (getIndexBits m + OFFSET_BITS) = a / 2 ^ (getIndexBits m + OFFSET_BITS)
    exact Nat.shiftRight_eq_div_pow a _

/-- Witness for `decompose_correct` at address 77 under set-associative
mapping (77 = 0b1001101: offset 13, index 1, tag 0). -/
theorem decompose_correct_witness :
    (getAddressComponents .setAssociative 77).offset = 77 % 2 ^ OFFSET_BITS ∧
    (getAddressComponents .direct 77).index = 77 % CACHE_SIZE ∧
    (getAddressComponents .setAssociative 77).index = 77 % (CACHE_SIZE / SET_SIZE) ∧
    (getAddressComponents .setAssociative 77).tag =
      77 / 2 ^ (getIndexBits .setAssociative + OFFSET_BITS) ∧
    getIndexBits .direct = Nat.log2 CACHE_SIZE ∧
    getIndexBits .setAssociative = Nat.log2 (CACHE_SIZE / SET_SIZE) ∧
    getIndexBits .fullyAssociative = 0 :=
  decompose_correct .setAssociative 77 (by decide)

/-- C6: the first `process(a)` call for an address `a` after a reset — i.e.
while `a` is not yet in `addressesEverSeen`, the set reset clears and every
processed address joins — is a miss whose kind is Compulsory or Both, never
Capacity alone.  That it cannot be a hit rests on the reachability invariant
that every resident address has been seen. -/
theorem first_access_compulsory_or_both (m : MappingType) (p : ReplacementPolicy)
    (events : List Event) (clock rand a : Nat)
    (h : (run m p events).addressesEverSeen.contains a = false) :
    ∃ mt, (processAddress m p clock rand (run m p events) a).history.head?.map
        (fun e => (e.result, e.missType)) = some (AccessResult.miss, some mt) ∧
      (mt = MissType.compulsory ∨ mt = MissType.both) := by
  have h2 : a ∉ (run m p events).addressesEverSeen := by simpa using h
  have hmiss : findAddressInCache m (run m p events).cache a = none := by
    cases hf : findAddressInCache m (run m p events).cache a with
    | none => rfl
    | some i =>
      obtain ⟨hi, haddr⟩ := findAddressInCache_some m _ a i hf
      have hc := seenInvariant_run m p events _ (getD_mem hi) a haddr
      rw [h] at hc
      exact Bool.noConfusion hc
  refine ⟨if (chooseVictim m p rand (run m p events).cache
      (getAddressComponents m a).index).1 then .both else .compulsory, ?_, ?_⟩
  · simp [processAddress, hmiss, h2]
  · cases (chooseVictim m p rand (run m p events).cache
        (getAddressComponents m a).index).1 <;> simp

/-- Witness for `first_access_compulsory_or_both`: address 5 directly after
a reset. -/
theorem first_access_compulsory_or_both_witness :
    ∃ mt, (processAddress .fullyAssociative .lru 7 0
        (run .fullyAssociative .lru []) 5).history.head?.map
        (fun e => (e.result, e.missType)) = some (AccessResult.miss, some mt) ∧
      (mt = MissType.compulsory ∨ mt = MissType.both) :=
  first_access_compulsory_or_both .fullyAssociative .lru [] 7 0 5 (by decide)

/-- C7: under Direct mapping the slot probed on lookup and the slot written on
a miss are both `a mod cacheCapacity`, and the whole state transition is
independent of the configured replacement policy. -/
theorem direct_slot_policy_independent (p q : ReplacementPolicy)
    (clock rand : Nat) (s : SimState) (a : Nat) (events : List Event) :
    (findAddressInCache .direct s.cache a = none ∨
      findAddressInCache .direct s.cache a = some (a % CACHE_SIZE)) ∧
    (chooseVictim .direct p rand s.cache (getAddressComponents .direct a).index).2 =
      a % CACHE_SIZE ∧
    processAddress .direct p clock rand s a = processAddress .direct q clock rand s a ∧
    run .direct p events = run .direct q events := by
  have hstep : ∀ (s1 : SimState) (c r b : Nat),
      processAddress .direct p c r s1 b = processAddress .direct q c r s1 b := by
    intro s1 c r b
    cases hf : findAddressInCache .direct s1.cache b with
    | some i => simp only [processAddress, hf]
    | none => simp only [processAddress, hf, chooseVictim]
  refine ⟨?_, rfl, hstep s clock rand a, ?_⟩
  · by_cases hc : (s.cache.getD (getAddressComponents .direct a).index
        emptyBlock).address = some a
    · right
      simp only [findAddressInCache]
      rw [if_pos hc]
      rfl
    · left
      simp only [findAddressInCache]
      rw [if_neg hc]
  · have hrun : ∀ (evs : List Event) (s0 : SimState),
        List.foldl (applyEvent .direct p) s0 evs =
          List.foldl (applyEvent .direct q) s0 evs := by
      intro evs
      induction evs with
      | nil => intro s0; rfl
      | cons e es ih =>
        intro s0
        simp only [List.foldl_cons]
        have he : applyEvent .direct p s0 e = applyEvent .direct q s0 e := by
          cases e with
          | proc c r b => exact hstep s0 c r b
          | reset => rfl
        rw [he]
        exact ih _
    unfold run
    exact hrun events resetCache

/-- C8: submitting an address outside `[0, 2^addressBits)` fails with the
typed `invalidAddress` error and leaves the simulator state untouched (the
handler returns before any processing); every in-range address is processed
and the call cannot fail. -/
theorem submit_validates_address (m : MappingType) (p : ReplacementPolicy)
    (clock rand : Nat) (s : SimState) (a : Int) :
    (¬ (0 ≤ a ∧ a < 2 ^ ADDRESS_BITS) →
      handleAddressSubmit m p clock rand s a =
        Except.error SimulatorError.invalidAddress) ∧
    ((0 ≤ a ∧ a < 2 ^ ADDRESS_BITS) →
      handleAddressSubmit m p clock rand s a =
        Except.ok (processAddress m p clock rand s a.toNat)) := by
  have hpow : (2 : Int) ^ ADDRESS_BITS = 1048576 := by norm_num [ADDRESS_BITS]
  constructor
  · intro h
    rw [hpow] at h
    have hc : a < 0 ∨ a > 1048575 := by omega
    unfold handleAddressSubmit
    rw [if_pos hc]
  · intro h
    rw [hpow] at h
    have hc : ¬ (a < 0 ∨ a > 1048575) := by omega
    unfold handleAddressSubmit
    rw [if_neg hc]

/-- Witness for `submit_validates_address`: -1 is rejected without touching
state, 3 is processed. -/
theorem submit_validates_address_witness :
    handleAddressSubmit .direct .fifo 0 0 resetCache (-1) =
      Except.error SimulatorError.invalidAddress ∧
    handleAddressSubmit .direct .fifo 0 0 resetCache 3 =
      Except.ok (processAddress .direct .fifo 0 0 resetCache ((3 : Int)).toNat) :=
  ⟨(submit_validates_address .direct .fifo 0 0 resetCache (-1)).1
      (by norm_num [ADDRESS_BITS]),
    (submit_validates_address .direct .fifo 0 0 resetCache 3).2
      (by norm_num [ADDRESS_BITS])⟩

/-- C9: after any event sequence, a `reset` yields the state with all
`cacheCapacity` slots empty, `addressesEverSeen` empty, all three counters
zero and empty history; a second consecutive `reset` produces the same
state (idempotence). -/
theorem reset_clears_state (m : MappingType) (p : ReplacementPolicy)
    (events : List Event) :
    (run m p (events ++ [Event.reset])).cache.all (fun b => b.address.isNone) = true ∧
    (run m p (events ++ [Event.reset])).cache.length = CACHE_SIZE ∧
    (run m p (events ++ [Event.reset])).stats =
      { hits := 0, compulsoryMisses := 0, capacityMisses := 0 } ∧
    (run m p (events ++ [Event.reset])).history = [] ∧
    (run m p (events ++ [Event.reset])).addressesEverSeen = [] ∧
    run m p (events ++ [Event.reset, Event.reset]) = run m p (events ++ [Event.reset]) := by
  have h1 : run m p (events ++ [Event.reset]) = resetCache := by
    unfold run
    rw [List.foldl_append]
    rfl
  have h2 : run m p (events ++ [Event.reset, Event.reset]) = resetCache := by
    unfold run
    rw [List.foldl_append]
    rfl
  rw [h1, h2]
  exact ⟨by decide, by decide, rfl, rfl, rfl, rfl⟩
